import Mathlib

/-!
Verification of the minecraft-pathfinding core against its specification.

The TypeScript source is shallowly embedded: pure functions become Lean
functions, stateful/asynchronous code becomes explicit state passing driven
by fuel, JS numbers are modelled as exact rationals, and JS exceptions
become explicit result constructors.  External collaborators that are not
part of this repository (the world query layer, the physics simulator, the
interaction handlers, the A* engine internals) are taken as parameters
(oracles), so every theorem quantifies over all of their behaviours.
-/

/-- A 3D vector with rational coordinates, modelling the source's `Vec3` of
IEEE doubles with exact arithmetic. -/
structure V3Q where
  x : ℚ
  y : ℚ
  z : ℚ
deriving DecidableEq, Repr

/-- Componentwise subtraction, modelling `Vec3.minus`. -/
def vsub (a b : V3Q) : V3Q := ⟨a.x - b.x, a.y - b.y, a.z - b.z⟩

/-- Componentwise addition, modelling `Vec3.plus`. -/
def vadd (a b : V3Q) : V3Q := ⟨a.x + b.x, a.y + b.y, a.z + b.z⟩

/-- Scalar multiple, modelling `Vec3.scaled`. -/
def vscale (t : ℚ) (a : V3Q) : V3Q := ⟨t * a.x, t * a.y, t * a.z⟩

/-- Dot product, modelling `Vec3.dot`. -/
def vdot (a b : V3Q) : ℚ := a.x * b.x + a.y * b.y + a.z * b.z

/-- Squared Euclidean norm.  The source computes `norm()` (with a square
root) but only ever uses it in `segmentLength === 0` and `segmentLength ** 2`,
both of which are exactly the squared norm over the reals, so the embedding
works with the square directly. -/
def normSq (a : V3Q) : ℚ := vdot a a

/-- Squared distance between two points; the source's comparator
`a.entryPos.distanceTo(pos) - b.entryPos.distanceTo(pos)` orders moves
exactly as the squared distance does, since the square root is strictly
monotone on nonnegative reals. -/
def distSq (a b : V3Q) : ℚ := normSq (vsub a b)

/-- An integer block coordinate, modelling floored `Vec3` block positions. -/
structure IV3 where
  x : ℤ
  y : ℤ
  z : ℤ
deriving DecidableEq, Repr

/-- Offset an integer block coordinate, modelling `getBlockInfo(pos, dx, dy, dz)`
addressing. -/
def ioff (p : IV3) (dx dy dz : ℤ) : IV3 := ⟨p.x + dx, p.y + dy, p.z + dz⟩

/-- The centre of a block, modelling `pos.offset(0.5, 0.5, 0.5)` /
`translate(0.5, 0.5, 0.5)`. -/
def blockCenter (p : IV3) : V3Q := ⟨(p.x : ℚ) + 1/2, (p.y : ℚ) + 1/2, (p.z : ℚ) + 1/2⟩

/-- Path statuses of `Path.status` in `abstract/index.ts`.
Source names: `success`, `noPath`, `timeout`, the slice-budget status
(spelled with the reserved word for incomplete searches in the source,
here `ongoing`), and the chained-subsearch status (`ongoing` followed by
`Success` in the source, here `chained`). -/
inductive PStatus
  | success
  | noPath
  | timeout
  | ongoing
  | chained
deriving DecidableEq, Repr

/-- The `Path` result record of `abstract/index.ts`: status, total cost,
wall-clock calculation time, diagnostic counters, the move sequence
(modelled by move identifiers), and the search context that produced it
(modelled by an identifier, since only reference equality matters here). -/
structure PathResult where
  status : PStatus
  cost : ℚ
  calcTime : ℚ
  visitedNodes : Nat
  generatedNodes : Nat
  path : List Nat
  context : Nat
deriving DecidableEq, Repr

/-- Embedding of `ThePathfinder.postProcess` (ThePathfinder.ts lines
616-627): the optimizer is loaded with `pathInfo.path` and computed, a
shallow copy `{ ...pathInfo }` is taken, and only its `path` field is
replaced by the optimizer's output.  The optimizer itself lives outside
the given sources, so it is a parameter. -/
def postProcess (optimizerCompute : List Nat → List Nat) (pathInfo : PathResult) : PathResult :=
  { pathInfo with path := optimizerCompute pathInfo.path }

/-- C10: `postProcess` returns a Path whose `status`, `cost`, `calcTime`,
`visitedNodes`, `generatedNodes` and `context` fields equal those of the
input, with only the `path` field replaced by the optimizer's output; the
input value itself is untouched (the source builds a fresh object by
spreading and never assigns into `pathInfo`, which the pure embedding
captures by returning a new record). -/
theorem postProcess_frame :
    ∀ (opt : List Nat → List Nat) (p : PathResult),
      (postProcess opt p).status = p.status ∧
      (postProcess opt p).cost = p.cost ∧
      (postProcess opt p).calcTime = p.calcTime ∧
      (postProcess opt p).visitedNodes = p.visitedNodes ∧
      (postProcess opt p).generatedNodes = p.generatedNodes ∧
      (postProcess opt p).context = p.context ∧
      (postProcess opt p).path = opt p.path := by
  intro opt p
  simp [postProcess]

/-- Embedding of `ThePathfinder.closestPointOnLineSegment` (ThePathfinder.ts
lines 291-312).  The source tests `segmentLength === 0` on the Euclidean
norm and divides by `segmentLength ** 2`; over the reals the norm vanishes
exactly when its square does and squaring undoes the root, so the embedding
uses the squared norm. -/
def closestPointOnLineSegment (point segmentStart segmentEnd : V3Q) : V3Q :=
  let segSq := normSq (vsub segmentEnd segmentStart)
  if segSq = 0 then segmentStart
  else
    let t := vdot (vsub point segmentStart) (vsub segmentEnd segmentStart) / segSq
    if t < 0 then segmentStart
    else if 1 < t then segmentEnd
    else vadd segmentStart (vscale t (vsub segmentEnd segmentStart))

/-- The projection parameter `t` of `closestPointOnLineSegment`. -/
def tParam (point segmentStart segmentEnd : V3Q) : ℚ :=
  vdot (vsub point segmentStart) (vsub segmentEnd segmentStart) /
    normSq (vsub segmentEnd segmentStart)

/-- C9: `closestPointOnLineSegment` is total and always returns a point of
the closed segment: a zero-length segment yields the start point (the
guarded division is never taken with a zero divisor), a projection
parameter below 0 yields the start, above 1 the end, and otherwise the
interpolated point; in every case the result is `start + s * (end - start)`
for some `s` in `[0, 1]`. -/
theorem closestPointOnLineSegment_on_segment :
    ∀ p a b : V3Q,
      (normSq (vsub b a) = 0 → closestPointOnLineSegment p a b = a) ∧
      (normSq (vsub b a) ≠ 0 → tParam p a b < 0 → closestPointOnLineSegment p a b = a) ∧
      (normSq (vsub b a) ≠ 0 → 1 < tParam p a b → closestPointOnLineSegment p a b = b) ∧
      (normSq (vsub b a) ≠ 0 → 0 ≤ tParam p a b → tParam p a b ≤ 1 →
        closestPointOnLineSegment p a b = vadd a (vscale (tParam p a b) (vsub b a))) ∧
      ∃ s : ℚ, 0 ≤ s ∧ s ≤ 1 ∧ closestPointOnLineSegment p a b = vadd a (vscale s (vsub b a)) := by
  intro p a b
  have hv0 : ∀ c : V3Q, vadd c (vscale 0 (vsub b c)) = c := by
    intro c
    cases c
    simp [vadd, vscale, vsub]
  have hv1 : vadd a (vscale 1 (vsub b a)) = b := by
    cases a
    cases b
    simp [vadd, vscale, vsub]
  have heq : closestPointOnLineSegment p a b =
      if normSq (vsub b a) = 0 then a
      else if tParam p a b < 0 then a
      else if 1 < tParam p a b then b
      else vadd a (vscale (tParam p a b) (vsub b a)) := rfl
  refine ⟨?_, ?_, ?_, ?_, ?_⟩
  · intro h
    rw [heq, if_pos h]
  · intro h ht
    rw [heq, if_neg h, if_pos ht]
  · intro h ht
    rw [heq, if_neg h, if_neg (not_lt.mpr (le_of_lt (lt_trans zero_lt_one ht))), if_pos ht]
  · intro h h0 h1
    rw [heq, if_neg h, if_neg (not_lt.mpr h0), if_neg (not_lt.mpr h1)]
  · by_cases h : normSq (vsub b a) = 0
    · exact ⟨0, le_refl 0, by norm_num, by rw [heq, if_pos h, hv0]⟩
    · by_cases ht0 : tParam p a b < 0
      · exact ⟨0, le_refl 0, by norm_num, by rw [heq, if_neg h, if_pos ht0, hv0]⟩
      · by_cases ht1 : 1 < tParam p a b
        · exact ⟨1, by norm_num, le_refl 1, by rw [heq, if_neg h, if_neg ht0, if_pos ht1, hv1]⟩
        · exact ⟨tParam p a b, not_lt.mp ht0, not_lt.mp ht1, by
            rw [heq, if_neg h, if_neg ht0, if_neg ht1]⟩

/-- C9 witness: at a concrete configuration with the query point past the
segment end, the function returns the segment end. -/
theorem closestPointOnLineSegment_on_segment_witness :
    closestPointOnLineSegment ⟨5, 0, 0⟩ ⟨0, 0, 0⟩ ⟨1, 0, 0⟩ = ⟨1, 0, 0⟩ :=
  ((closestPointOnLineSegment_on_segment ⟨5, 0, 0⟩ ⟨0, 0, 0⟩ ⟨1, 0, 0⟩).2.2.1)
    (by norm_num [normSq, vdot, vsub])
    (by norm_num [tParam, normSq, vdot, vsub])

/-- Block metadata consumed by the movement providers, modelling the
`BlockInfo` fields that `getMoveForward` / `getMoveJumpUp` read (`physical`,
`replaceable`, `height`); a block's `position` is the queried coordinate. -/
structure BlockInfoR where
  physical : Bool
  replaceable : Bool
  liquid : Bool
  safe : Bool
  height : ℚ
deriving DecidableEq, Repr

/-- Componentwise addition of block coordinates, modelling `pos.add(dir)`. -/
def iadd (a b : IV3) : IV3 := ⟨a.x + b.x, a.y + b.y, a.z + b.z⟩

/-- A candidate successor move as produced by a movement provider: its
transition cost, its exit position (the new move's own position), and the
block-place / block-break intents attached to it. -/
structure MoveCand where
  cost : ℚ
  exitPos : V3Q
  toPlace : List IV3
  toBreak : List IV3
deriving DecidableEq, Repr

/-- Embedding of `ForwardMove.getMoveForward` (movementProviders, lines
798-818): footing below the destination must be physical, the destination
body and head blocks must not be, and the emitted move costs 1 with its
exit at the centre of the destination block.  The world query layer is a
parameter. -/
def getMoveForward (world : IV3 → BlockInfoR) (pos : IV3) (dir : IV3) : Option MoveCand :=
  let blockB := world (ioff pos dir.x 1 dir.z)
  let blockC := world (ioff pos dir.x 0 dir.z)
  let blockD := world (ioff pos dir.x (-1) dir.z)
  let cost : ℚ := 1
  if !blockD.physical then none
  else if blockB.physical || blockC.physical then none
  else some { cost := cost, exitPos := blockCenter (iadd pos dir), toPlace := [], toBreak := [] }

/-- C7: `getMoveForward` emits a candidate iff the block below the
destination is physical and neither the destination body block nor the
head block is physical; an emitted candidate has cost 1 and (for cardinal
directions, whose y component is 0) exits at the centre of the destination
block. -/
theorem getMoveForward_spec :
    ∀ (world : IV3 → BlockInfoR) (pos dir : IV3),
      ((getMoveForward world pos dir).isSome ↔
        ((world (ioff pos dir.x (-1) dir.z)).physical = true ∧
         (world (ioff pos dir.x 0 dir.z)).physical = false ∧
         (world (ioff pos dir.x 1 dir.z)).physical = false)) ∧
      (∀ c, getMoveForward world pos dir = some c →
        c.cost = 1 ∧ (dir.y = 0 → c.exitPos = blockCenter (ioff pos dir.x 0 dir.z))) := by
  intro world pos dir
  have hdest : dir.y = 0 → iadd pos dir = ioff pos dir.x 0 dir.z := by
    intro hy
    simp [iadd, ioff, hy]
  rcases hB : (world (ioff pos dir.x 1 dir.z)).physical <;>
    rcases hC : (world (ioff pos dir.x 0 dir.z)).physical <;>
      rcases hD : (world (ioff pos dir.x (-1) dir.z)).physical <;>
        refine ⟨?_, ?_⟩ <;>
          simp [getMoveForward, hB, hC, hD] <;>
            intro hc <;>
              simp [← hc, hdest]

/-- C7 witness: a concrete world where only the footing block is physical;
the move is emitted with cost 1 and exit at the destination centre. -/
theorem getMoveForward_spec_witness :
    ((getMoveForward
        (fun q => if q = ioff ⟨0, 0, 0⟩ 1 (-1) 0 then ⟨true, false, false, true, 1⟩
                  else ⟨false, false, false, true, 0⟩)
        ⟨0, 0, 0⟩ ⟨1, 0, 0⟩).isSome = true) ∧
    (getMoveForward
        (fun q => if q = ioff ⟨0, 0, 0⟩ 1 (-1) 0 then ⟨true, false, false, true, 1⟩
                  else ⟨false, false, false, true, 0⟩)
        ⟨0, 0, 0⟩ ⟨1, 0, 0⟩ =
      some { cost := 1, exitPos := blockCenter (iadd ⟨0, 0, 0⟩ ⟨1, 0, 0⟩),
             toPlace := [], toBreak := [] }) := by
  constructor
  · exact ((getMoveForward_spec
      (fun q => if q = ioff ⟨0, 0, 0⟩ 1 (-1) 0 then ⟨true, false, false, true, 1⟩
                else ⟨false, false, false, true, 0⟩)
      ⟨0, 0, 0⟩ ⟨1, 0, 0⟩).1).mpr (by decide)
  · rfl

/-- Tail of `ForwardJumpMove.getMoveJumpUp` (movementProviders, lines
923-934): the jump-height sanity check against the standing block, then
three `cost += safeOrBreak(...)` accumulations (for blocks A, H and B, in
source order) each followed by the `if (cost > 100) return` ceiling check,
and finally the candidate emission with its exit at the centre of block B.
`safeOrBreak` lives outside the given sources, so its cost contribution and
the break intents it appends are oracles indexed by call site. -/
def getMoveJumpUpFinish (world : IV3 → BlockInfoR) (sobCost : Fin 3 → ℚ)
    (sobBreaks : Fin 3 → List IV3) (pos dir : IV3)
    (cHeight : ℚ) (toBreak toPlace : List IV3) : Option MoveCand :=
  let block0 := world (ioff pos 0 (-1) 0)
  if 6/5 < cHeight - block0.height then none
  else
    let cost1 : ℚ := 2 + sobCost 0
    let tb1 := toBreak ++ sobBreaks 0
    if 100 < cost1 then none
    else
      let cost2 := cost1 + sobCost 1
      let tb2 := tb1 ++ sobBreaks 1
      if 100 < cost2 then none
      else
        let cost3 := cost2 + sobCost 2
        let tb3 := tb2 ++ sobBreaks 2
        if 100 < cost3 then none
        else some { cost := cost3, exitPos := blockCenter (ioff pos dir.x 1 dir.z),
                    toPlace := toPlace, toBreak := tb3 }

/-- Embedding of `ForwardJumpMove.getMoveJumpUp` (movementProviders, lines
872-935).  When the target body block C is not physical, support must be
placed: with zero remaining placeable blocks the candidate is dropped; when
the footing block D below it is also not physical a second placement is
needed, so one remaining block is likewise insufficient; non-replaceable
blocks must pass `safeToBreak` (an oracle, the source of which is outside
the given files) and are queued as break intents before the place intents,
in source push order (D before C). -/
def getMoveJumpUp (world : IV3 → BlockInfoR) (sToB : BlockInfoR → Bool)
    (sobCost : Fin 3 → ℚ) (sobBreaks : Fin 3 → List IV3)
    (remainingBlocks : Nat) (pos dir : IV3) : Option MoveCand :=
  let blockC := world (ioff pos dir.x 0 dir.z)
  if blockC.physical then
    getMoveJumpUpFinish world sobCost sobBreaks pos dir blockC.height [] []
  else
    if remainingBlocks = 0 then none
    else
      let blockD := world (ioff pos dir.x (-1) dir.z)
      let stageD : Option (List IV3 × List IV3) :=
        if blockD.physical then some ([], [])
        else if remainingBlocks = 1 then none
        else if blockD.replaceable then some ([], [ioff pos dir.x (-1) dir.z])
        else if sToB blockD then
          some ([ioff pos dir.x (-1) dir.z], [ioff pos dir.x (-1) dir.z])
        else none
      match stageD with
      | none => none
      | some (tbD, tpD) =>
        if blockC.replaceable then
          getMoveJumpUpFinish world sobCost sobBreaks pos dir (blockC.height + 1)
            tbD (tpD ++ [ioff pos dir.x 0 dir.z])
        else if sToB blockC then
          getMoveJumpUpFinish world sobCost sobBreaks pos dir (blockC.height + 1)
            (tbD ++ [ioff pos dir.x 0 dir.z]) (tpD ++ [ioff pos dir.x 0 dir.z])
        else none

/-- Every candidate that survives the three ceiling checks carries cost at
most 100. -/
theorem getMoveJumpUpFinish_cost_le (world : IV3 → BlockInfoR) (sobCost : Fin 3 → ℚ)
    (sobBreaks : Fin 3 → List IV3) (pos dir : IV3)
    (cHeight : ℚ) (toBreak toPlace : List IV3) :
    ∀ c, getMoveJumpUpFinish world sobCost sobBreaks pos dir cHeight toBreak toPlace = some c →
      c.cost ≤ 100 := by
  intro c h
  simp only [getMoveJumpUpFinish] at h
  split at h
  · simp at h
  · split at h
    · simp at h
    · split at h
      · simp at h
      · split at h
        · simp at h
        · cases h
          simpa using le_of_not_lt (by assumption)

/-- C6: the jump-up provider emits nothing when the node's remaining
placeable count is insufficient (zero remaining when the body block must be
placed; at most one remaining when both the body and the footing block must
be placed), and every candidate it does emit has accumulated cost at most
the fixed ceiling 100 — infeasible candidates are omitted (`none`), never
emitted with a sentinel cost. -/
theorem getMoveJumpUp_resource_ceiling :
    ∀ (world : IV3 → BlockInfoR) (sToB : BlockInfoR → Bool)
      (sobCost : Fin 3 → ℚ) (sobBreaks : Fin 3 → List IV3)
      (rem : Nat) (pos dir : IV3),
      ((world (ioff pos dir.x 0 dir.z)).physical = false → rem = 0 →
        getMoveJumpUp world sToB sobCost sobBreaks rem pos dir = none) ∧
      ((world (ioff pos dir.x 0 dir.z)).physical = false →
       (world (ioff pos dir.x (-1) dir.z)).physical = false → rem ≤ 1 →
        getMoveJumpUp world sToB sobCost sobBreaks rem pos dir = none) ∧
      (∀ c, getMoveJumpUp world sToB sobCost sobBreaks rem pos dir = some c →
        c.cost ≤ 100) := by
  intro world sToB sobCost sobBreaks rem pos dir
  refine ⟨?_, ?_, ?_⟩
  · intro hC h0
    simp [getMoveJumpUp, hC, h0]
  · intro hC hD hrem
    rcases Nat.le_one_iff_eq_zero_or_eq_one.mp hrem with rfl | rfl
    · simp [getMoveJumpUp, hC, hD]
    · simp [getMoveJumpUp, hC, hD]
  · intro c h
    simp only [getMoveJumpUp] at h
    split at h
    · exact getMoveJumpUpFinish_cost_le _ _ _ _ _ _ _ _ c h
    · split at h
      · simp at h
      · split at h
        · simp at h
        · split at h
          · exact getMoveJumpUpFinish_cost_le _ _ _ _ _ _ _ _ c h
          · split at h
            · exact getMoveJumpUpFinish_cost_le _ _ _ _ _ _ _ _ c h
            · simp at h

/-- C6 witness: with no remaining placeable blocks and a non-physical body
block the candidate is omitted, and a concretely emitted candidate (solid
body block, flat heights, zero break surcharges) costs 2 which respects the
ceiling. -/
theorem getMoveJumpUp_resource_ceiling_witness :
    getMoveJumpUp (fun _ => ⟨false, false, false, true, 0⟩) (fun _ => true)
      (fun _ => 0) (fun _ => []) 0 ⟨0, 0, 0⟩ ⟨1, 0, 0⟩ = none ∧
    (2 : ℚ) ≤ 100 := by
  constructor
  · exact (getMoveJumpUp_resource_ceiling (fun _ => ⟨false, false, false, true, 0⟩)
      (fun _ => true) (fun _ => 0) (fun _ => []) 0 ⟨0, 0, 0⟩ ⟨1, 0, 0⟩).1 rfl rfl
  · exact (getMoveJumpUp_resource_ceiling (fun _ => ⟨true, false, false, true, 0⟩)
      (fun _ => true) (fun _ => 0) (fun _ => []) 5 ⟨0, 0, 0⟩ ⟨1, 0, 0⟩).2.2
      { cost := 2, exitPos := blockCenter (ioff ⟨0, 0, 0⟩ 1 1 0), toPlace := [], toBreak := [] }
      (by norm_num [getMoveJumpUp, getMoveJumpUpFinish])

/-- Producer-side state of `ContinuousPathProducer`: the `astarContext`
field, which is `undefined` (`none`) until the first `advance()`
instantiates the engine.  The engine's internal state (frontier, closed
set, counters) is an arbitrary type `σ` since the A* implementation is
outside the given sources. -/
structure ProducerSt (σ : Type) where
  ctx : Option σ

/-- Embedding of `ContinuousPathProducer.advance` (pathProducers, lines
38-67): when `astarContext` is `null` a fresh engine is built (`mkAStar`
models the `new AStar(start, moveHandler, goal, -1, 40, -1, 0)` value) and
stored; then `compute()` runs one slice on the stored engine, whose
in-place mutation is modelled by threading the updated state back into the
producer.  The returned flag records whether this call instantiated an
engine; the garbage-collection hint in the source has no observable effect
on the producer and is dropped. -/
def advanceProducer {σ : Type} (mkAStar : σ) (compute : σ → σ × PathResult)
    (st : ProducerSt σ) : ProducerSt σ × PathResult × Bool :=
  match st.ctx with
  | none =>
    let res := compute mkAStar
    (⟨some res.1⟩, res.2, true)
  | some a =>
    let res := compute a
    (⟨some res.1⟩, res.2, false)

/-- Run `n` successive `advance()` calls from a fresh producer, returning
the final producer state and how many engine instantiations occurred. -/
def runProducer {σ : Type} (mkAStar : σ) (compute : σ → σ × PathResult) : Nat → ProducerSt σ × Nat
  | 0 => (⟨none⟩, 0)
  | n+1 =>
    let prev := runProducer mkAStar compute n
    let step := advanceProducer mkAStar compute prev.1
    (step.1, prev.2 + (if step.2.2 then 1 else 0))

/-- The engine state reached by applying `compute` `n+1` times to the
freshly constructed engine: the search frontier/closed state carried
across slices without restarting. -/
def computeChain {σ : Type} (mkAStar : σ) (compute : σ → σ × PathResult) : Nat → σ
  | 0 => (compute mkAStar).1
  | n+1 => (compute (computeChain mkAStar compute n)).1

/-- C5: over any number of `advance()` calls a `ContinuousPathProducer`
instantiates exactly one search engine — the first call creates it and
every later call runs `compute()` on that same engine, so after `n+1`
calls the stored context is the `n+1`-fold `compute` chain of the single
engine created at the first call (the search continues from the prior
frontier/closed state rather than restarting). -/
theorem continuousProducer_single_engine :
    ∀ (σ : Type) (mkAStar : σ) (compute : σ → σ × PathResult) (n : Nat),
      (runProducer mkAStar compute (n+1)).2 = 1 ∧
      (runProducer mkAStar compute (n+1)).1.ctx = some (computeChain mkAStar compute n) := by
  intro σ mk c n
  induction n with
  | zero => simp [runProducer, advanceProducer, computeChain]
  | succ n ih =>
    obtain ⟨h1, h2⟩ := ih
    have hstep : advanceProducer mk c (runProducer mk c (n+1)).1 =
        (⟨some (computeChain mk c (n+1))⟩, (c (computeChain mk c n)).2, false) := by
      simp [advanceProducer, h2, computeChain]
    constructor
    · show (runProducer mk c (n+1)).2 + _ = 1
      rw [hstep, h1]
      simp
    · show (advanceProducer mk c (runProducer mk c (n+1)).1).1.ctx = _
      rw [hstep]

/-- Embedding of the status scan of `getPathFromTo` (ThePathfinder.ts lines
473-497): the first result whose status is decisive, i.e. not one of the
two continue-statuses of the do-while condition. -/
def firstDecisive (advO : Nat → PathResult) : Nat → Nat → Option PathResult
  | 0, _ => none
  | fuel+1, k =>
    let r := advO k
    if r.status = .ongoing ∨ r.status = .chained then firstDecisive advO fuel (k+1)
    else some r

/-- Embedding of `ThePathfinder.getPathFromToRaw` (lines 506-515) driving
the generator loop of `getPathFromTo` (lines 473-497).  `advO k` is the
result of the producer's k-th `advance()`; `abortO k` tells whether
`abortCalculation` is observed set right after that result.  Outcomes:
`some (some p)` — the raw call returns the Path `p` (a success was
yielded); `some none` — the raw call returns `null` (a `noPath`/`timeout`
result was yielded, or the generator ended after an abort); `none` — the
fuel bound ran out with the search still slicing. -/
def getPathFromToRaw (advO : Nat → PathResult) (abortO : Nat → Bool) :
    Nat → Nat → Option (Option PathResult)
  | 0, _ => none
  | fuel+1, k =>
    let r := advO k
    if r.status = .success then some (some r)
    else if r.status = .noPath ∨ r.status = .timeout then some none
    else if abortO k then some none
    else getPathFromToRaw advO abortO fuel (k+1)

/-- C4: search-level failures are returned, never raised — in any run in
which the calculation is not aborted and the producer reaches a decisive
status within the fuel bound, `getPathFromToRaw` returns `null` exactly
when that decisive result has status `noPath` or `timeout`, and returns
the Path value exactly when the decisive result is a `success`. -/
theorem getPathFromToRaw_status_policy :
    ∀ (advO : Nat → PathResult) (abortO : Nat → Bool) (fuel k : Nat) (res : Option PathResult),
      (∀ j, abortO j = false) →
      getPathFromToRaw advO abortO fuel k = some res →
      ((res = none ↔ ∃ p, firstDecisive advO fuel k = some p ∧
          (p.status = .noPath ∨ p.status = .timeout)) ∧
       (∀ p, res = some p ↔ (firstDecisive advO fuel k = some p ∧ p.status = .success))) := by
  intro advO abortO fuel
  induction fuel with
  | zero =>
    intro k res hab h
    simp [getPathFromToRaw] at h
  | succ fuel ih =>
    intro k res hab h
    rcases hst : (advO k).status with _ | _ | _ | _ | _ <;>
      simp only [getPathFromToRaw, firstDecisive, hst, hab, reduceCtorEq, if_false,
        Bool.false_eq_true, or_self, or_false, false_or, if_true, ite_self] at h ⊢
    · cases h
      constructor
      · simp [hst]
      · intro p
        constructor
        · intro hp
          refine ⟨hp, ?_⟩
          injection hp with hq
          rw [← hq]
          exact hst
        · rintro ⟨hp, _⟩
          exact hp
    · cases h
      constructor
      · simp [hst]
      · intro p
        constructor
        · intro hp
          exact absurd hp (by simp)
        · rintro ⟨hp, hps⟩
          injection hp with hq
          rw [← hq, hst] at hps
          simp at hps
    · cases h
      constructor
      · simp [hst]
      · intro p
        constructor
        · intro hp
          exact absurd hp (by simp)
        · rintro ⟨hp, hps⟩
          injection hp with hq
          rw [← hq, hst] at hps
          simp at hps
    · exact ih (k+1) res hab h
    · exact ih (k+1) res hab h

/-- C4 witness: a run that slices once and then reports `noPath` makes the
raw call return `null`, and the decisive result is indeed a `noPath`. -/
theorem getPathFromToRaw_status_policy_witness :
    ∃ p, firstDecisive
        (fun k => if k = 0 then ⟨.ongoing, 0, 0, 0, 0, [], 0⟩ else ⟨.noPath, 0, 0, 0, 0, [], 0⟩)
        5 0 = some p ∧ (p.status = .noPath ∨ p.status = .timeout) :=
  ((getPathFromToRaw_status_policy
      (fun k => if k = 0 then ⟨.ongoing, 0, 0, 0, 0, [], 0⟩ else ⟨.noPath, 0, 0, 0, 0, [], 0⟩)
      (fun _ => false) 5 0 none (fun _ => rfl) (by decide)).1).mp rfl

/-- Result of one `executor.align(move, tickCount++, goal)` poll (perform,
line 694): the precondition holds, it does not hold yet, or `align` itself
throws a `CancelError` (which `isInitAligned` may do). -/
inductive AlignRes
  | aligned
  | notAligned
  | cancelThrow
deriving DecidableEq, Repr

/-- Outcome of the alignment polling loop, carrying the number of `align`
polls performed. -/
inductive AlignPhase
  | proceed (polls : Nat)
  | cancelledAlign (polls : Nat)
  | abortedAlign (polls : Nat)
deriving DecidableEq, Repr

/-- Embedding of the alignment loop of `ThePathfinder.perform` (line 694):
`while (!(await executor.align(move, tickCount++, goal)) && tickCount < 999)`.
The poll at count `k` uses argument `k`; the post-increment makes the bound
test `k + 1 < 999`, tracked here by the structurally decreasing `left`
counter with `left = 998 - k`; `abortO` models `this.check()` raising a
user-abort or reset between polls.  When the bound is reached with the
predicate still false the loop simply exits and execution proceeds. -/
def alignLoopAux (alignO : Nat → AlignRes) (abortO : Nat → Bool) : Nat → Nat → AlignPhase
  | 0, k =>
    match alignO k with
    | .aligned => .proceed (k+1)
    | .cancelThrow => .cancelledAlign (k+1)
    | .notAligned => .proceed (k+1)
  | left+1, k =>
    match alignO k with
    | .aligned => .proceed (k+1)
    | .cancelThrow => .cancelledAlign (k+1)
    | .notAligned =>
      if abortO k then .abortedAlign (k+1) else alignLoopAux alignO abortO left (k+1)

/-- Result of one `executor._performPerTick(...)` poll (perform, lines
705-711): complete with an index advance, not yet complete, or a thrown
`CancelError`. -/
inductive TickRes
  | done (n : Nat)
  | pending
  | cancelThrow
deriving DecidableEq, Repr

/-- Outcome of the per-tick performance loop. -/
inductive TickPhase
  | finishedTick (adding : Nat)
  | cancelledTick
  | abortedTick
deriving DecidableEq, Repr

/-- Embedding of the per-tick loop of `ThePathfinder.perform` (lines
705-713): the same 999 post-increment bound as alignment; when the bound
is reached while still pending, the loop exits with `adding` equal to
`false`, and `currentIndex += adding as number` advances by 0. -/
def tickLoopAux (perTickO : Nat → TickRes) (abortO : Nat → Bool) : Nat → Nat → TickPhase
  | 0, k =>
    match perTickO k with
    | .done n => .finishedTick n
    | .cancelThrow => .cancelledTick
    | .pending => .finishedTick 0
  | left+1, k =>
    match perTickO k with
    | .done n => .finishedTick n
    | .cancelThrow => .cancelledTick
    | .pending =>
      if abortO k then .abortedTick else tickLoopAux perTickO abortO left (k+1)

/-- Overall outcome of executing one move. -/
inductive MoveExecRes
  | completedMove (adding : Nat)
  | cancelledMove
  | abortedMove
deriving DecidableEq, Repr

/-- Embedding of the per-move body of `ThePathfinder.perform` (lines
692-713): the alignment loop, then `executor._performInit`, then the
per-tick loop.  Returns the outcome, the number of alignment polls, and
whether the initialization phase was entered.  `_performInit` itself is
modelled as returning normally; failures it raises surface as
cancellations through the interaction layer and are orthogonal to what is
tracked here (whether the phase is entered at all). -/
def execMoveModel (alignO : Nat → AlignRes) (abortO : Nat → Bool) (perTickO : Nat → TickRes) :
    MoveExecRes × Nat × Bool :=
  match alignLoopAux alignO abortO 998 0 with
  | .cancelledAlign p => (.cancelledMove, p, false)
  | .abortedAlign p => (.abortedMove, p, false)
  | .proceed p =>
    match tickLoopAux perTickO abortO 998 0 with
    | .finishedTick n => (.completedMove n, p, true)
    | .cancelledTick => (.cancelledMove, p, true)
    | .abortedTick => (.abortedMove, p, true)

set_option maxRecDepth 8000 in
/-- C3 counterexample: a move whose alignment predicate never becomes true
(and which is never aborted) is NOT hard-cancelled — after the tick
ceiling the initialization phase is entered anyway (third component
`true`) and the move completes through its per-tick phase. -/
theorem align_ceiling_counterexample :
    execMoveModel (fun _ => .notAligned) (fun _ => false) (fun _ => .done 1) =
      (.completedMove 1, 999, true) ∧
    MoveExecRes.completedMove 1 ≠ MoveExecRes.cancelledMove := by
  exact ⟨rfl, by decide⟩

/-- An always-false alignment predicate with no abort makes the loop poll
exactly `left + 1` more times and then fall through. -/
theorem alignLoopAux_never_aligned (alignO : Nat → AlignRes) (abortO : Nat → Bool)
    (hA : ∀ j, alignO j = .notAligned) (hB : ∀ j, abortO j = false) :
    ∀ left k, alignLoopAux alignO abortO left k = .proceed (k + left + 1) := by
  intro left
  induction left with
  | zero =>
    intro k
    simp [alignLoopAux, hA]
  | succ left ih =>
    intro k
    rw [alignLoopAux, hA, hB]
    simp only [Bool.false_eq_true, if_false]
    rw [ih (k+1)]
    congr 1
    omega

/-- C3 (amended): when the alignment predicate never becomes true within
the tick ceiling (and no abort intervenes), execution of the move is not
cancelled at the alignment stage: the predicate is polled exactly 999
times and then the initialization and per-tick phases are entered anyway;
a hard cancel of the move can arise only from `align` itself throwing or
from the later phases. -/
theorem align_ceiling_falls_through :
    ∀ (alignO : Nat → AlignRes) (abortO : Nat → Bool) (perTickO : Nat → TickRes),
      (∀ k, alignO k = .notAligned) → (∀ k, abortO k = false) →
      alignLoopAux alignO abortO 998 0 = .proceed 999 ∧
      (execMoveModel alignO abortO perTickO).2 = (999, true) := by
  intro alignO abortO perTickO hA hB
  have h := alignLoopAux_never_aligned alignO abortO hA hB 998 0
  refine ⟨h, ?_⟩
  rw [execMoveModel, h]
  rcases tickLoopAux perTickO abortO 998 0 <;> rfl

/-- C3 witness for the amended statement, at constant oracles. -/
theorem align_ceiling_falls_through_witness :
    alignLoopAux (fun _ => .notAligned) (fun _ => false) 998 0 = .proceed 999 ∧
    (execMoveModel (fun _ => .notAligned) (fun _ => false) (fun _ => .pending)).2 = (999, true) :=
  align_ceiling_falls_through _ _ _ (fun _ => rfl) (fun _ => rfl)

/-- Result of `MovementExecutor.holdUntilAborted` (movement executor, lines
172-213): early return (proceed normally), the stored `ResetError` raised,
the `AbortError` raised, or the wait timing out — in which case the source
rejects with the generic `Error('Movement failed to abort properly.')`. -/
inductive HoldRes
  | proceeds
  | resetRaise
  | abortRaise
  | failRaise
deriving DecidableEq, Repr

/-- Interaction-cancellation events emitted while aborting: break handlers
first, then place handlers, each identified by an index. -/
inductive HoldEv
  | brkCancel (i : Nat)
  | plcCancel (i : Nat)
deriving DecidableEq, Repr

/-- Embedding of `MovementExecutor.holdUntilAborted` together with
`safeToCancel` (lines 453-455): when neither aborted nor resetting it
returns immediately; otherwise it aborts every break interaction of the
move, then every place interaction, then waits on physics ticks until
`safeToCancel` (on ground or in water, modelled by the per-tick oracle
`safeO`) or the timeout (modelled as a tick budget) elapses; a timed-out
wait rejects, and only a successful wait reaches the final reset/abort
checks (reset reason first). -/
def holdUntilAborted (aborted resetSet : Bool) (toBreak toPlace : List Nat)
    (safeO : Nat → Bool) (budget : Nat) : HoldRes × List HoldEv :=
  if !aborted && !resetSet then (.proceeds, [])
  else
    let evs := toBreak.map HoldEv.brkCancel ++ toPlace.map HoldEv.plcCancel
    if (List.range budget).any safeO then
      if resetSet then (.resetRaise, evs) else (.abortRaise, evs)
    else (.failRaise, evs)

/-- C8 counterexample: an aborting move with a reset reason set whose agent
never reaches a safe-to-cancel state within the timeout does NOT raise the
reset-requested failure — the wait's timeout rejects with the generic
failed-to-abort error instead. -/
theorem holdUntilAborted_timeout_counterexample :
    (holdUntilAborted true true [0] [1] (fun _ => false) 5).1 = HoldRes.failRaise ∧
    HoldRes.failRaise ≠ HoldRes.resetRaise := by
  decide

/-- C8 (amended): for an aborted or reset move execution the abort
procedure cancels all of the move's break interactions first and then all
of its place interactions; it then waits for a safe-to-cancel state
(grounded or in liquid), and if one is observed within the timeout it
raises the reset-requested failure when a reset reason is set and the
aborted failure otherwise, while if the timeout elapses first it raises
the generic failed-to-abort error; with neither flag set it proceeds
normally without cancelling anything. -/
theorem holdUntilAborted_spec :
    ∀ (aborted resetSet : Bool) (toBreak toPlace : List Nat) (safeO : Nat → Bool) (budget : Nat),
      (aborted = false → resetSet = false →
        holdUntilAborted aborted resetSet toBreak toPlace safeO budget = (.proceeds, [])) ∧
      (aborted = true ∨ resetSet = true →
        ((holdUntilAborted aborted resetSet toBreak toPlace safeO budget).2 =
          toBreak.map HoldEv.brkCancel ++ toPlace.map HoldEv.plcCancel) ∧
        ((∃ k, k < budget ∧ safeO k = true) →
          (holdUntilAborted aborted resetSet toBreak toPlace safeO budget).1 =
            (if resetSet then HoldRes.resetRaise else HoldRes.abortRaise)) ∧
        ((∀ k, k < budget → safeO k = false) →
          (holdUntilAborted aborted resetSet toBreak toPlace safeO budget).1 =
            HoldRes.failRaise)) := by
  intro ab rs tb tp safeO budget
  have hany : ((List.range budget).any safeO = true) ↔ (∃ k, k < budget ∧ safeO k = true) := by
    simp [List.any_eq_true, List.mem_range]
  constructor
  · rintro rfl rfl
    rfl
  · intro hor
    have hne : (!ab && !rs) = false := by
      rcases hor with rfl | rfl
      · simp
      · simp
    refine ⟨?_, ?_, ?_⟩
    · simp only [holdUntilAborted, hne, Bool.false_eq_true, if_false]
      split
      · split
        · rfl
        · rfl
      · rfl
    · intro hex
      simp only [holdUntilAborted, hne, Bool.false_eq_true, if_false, if_pos (hany.mpr hex)]
      rcases rs
      · rfl
      · rfl
    · intro hall
      have hnone : (List.range budget).any safeO = false := by
        rcases h : (List.range budget).any safeO
        · rfl
        · obtain ⟨k, hk, hsafe⟩ := hany.mp h
          rw [hall k hk] at hsafe
          cases hsafe
      simp only [holdUntilAborted, hne, Bool.false_eq_true, if_false, hnone]

/-- C8 witness for the amended statement: reset flag set, agent immediately
safe — the stored reset failure is raised after the break-then-place
cancellations. -/
theorem holdUntilAborted_spec_witness :
    (holdUntilAborted true true [0] [1] (fun _ => true) 1).1 = HoldRes.resetRaise ∧
    (holdUntilAborted true true [0] [1] (fun _ => true) 1).2 =
      [HoldEv.brkCancel 0, HoldEv.plcCancel 1] := by
  have h := (holdUntilAborted_spec true true [0] [1] (fun _ => true) 1).2 (Or.inl rfl)
  refine ⟨?_, by simpa using h.1⟩
  have hx := h.2.1 ⟨0, by decide, rfl⟩
  simpa using hx

/-- A planned move as `ThePathfinder.recovery` sees it: an identifier
(standing in for JS object identity), the entry position whose distance to
the agent drives the sort, and the floored position `move.vec` from which
an interim `GoalBlock` is built. -/
structure MoveR where
  id : Nat
  entryPos : V3Q
  vec : IV3
deriving DecidableEq, Repr

/-- Stable insertion by entry-position distance to `pos`; on equal keys the
inserted (originally earlier) element stays first, matching the stable
ECMAScript `Array.prototype.sort`. -/
def insertByDist (pos : V3Q) (m : MoveR) : List MoveR → List MoveR
  | [] => [m]
  | b :: l =>
    if distSq m.entryPos pos ≤ distSq b.entryPos pos then m :: b :: l
    else b :: insertByDist pos m l

/-- Stable sort by entry-position distance to `pos`, modelling the
IN-PLACE `path.path.sort((a, b) => a.entryPos.distanceTo(pos) -
b.entryPos.distanceTo(pos))` at ThePathfinder.ts line 748 (comparing true
distances orders exactly as comparing squared distances). -/
def sortByDist (pos : V3Q) : List MoveR → List MoveR
  | [] => []
  | a :: l => insertByDist pos a (sortByDist pos l)

/-- JS `Array.prototype.indexOf` on move identity (`-1` becomes `none`). -/
def indexOfMove (m : MoveR) (l : List MoveR) : Option Nat :=
  List.findIdx? (fun x => x.id == m.id) l

/-- The decision `ThePathfinder.recovery` reaches: `full` is the source's
`no` flag (`entry > 0 || bad`, full replan to the original goal); `target`
is the interim `GoalBlock` position when one is used instead of the
original goal; `resume` is what is left of the move array for the
resume-execution call `perform(path, goal, 0)` after
`path.path.splice(0, ind + 1)`. -/
structure RecovSel where
  full : Bool
  target : Option IV3
  resume : List MoveR
deriving DecidableEq, Repr

/-- Embedding of the goal-selection and resume logic of
`ThePathfinder.recovery` (ThePathfinder.ts lines 734-782).  `none` models
the immediate return when the failed move is not on the path
(`ind === -1`).  Crucially, the sort at line 748 mutates `path.path`
itself, so the subsequent `path.path.indexOf(nextMove)`, the access
`path.path[ind + 1]` and the final `splice(0, ind + 1)` all act on the
distance-sorted array, while `ind` was computed against the original
order before the sort. -/
def recoverySelect (pos : V3Q) (path : List MoveR) (move : MoveR) (entry : Nat) : Option RecovSel :=
  match indexOfMove move path with
  | none => none
  | some ind =>
    let sorted := sortByDist pos path
    let nmBad : Bool × Option MoveR :=
      match sorted.head? with
      | none => (true, none)
      | some nm =>
        match indexOfMove nm sorted with
        | none => (true, some nm)
        | some j =>
          if j < ind then (true, some nm)
          else if j = ind then (false, sorted.get? (ind + 1))
          else (false, some nm)
    let no := decide (0 < entry) || nmBad.1
    let target : Option IV3 :=
      if no then none
      else
        match nmBad.2 with
        | none => none
        | some nm => some nm.vec
    some { full := no, target := target, resume := sorted.drop (ind + 1) }

/-- The ten-move failing path of the C1 scenario: move `i` has identity
`i`, entry position `(i, 0, 0)` and block position `(i, 0, 0)`. -/
def bugPath : List MoveR :=
  [⟨0, ⟨0, 0, 0⟩, ⟨0, 0, 0⟩⟩, ⟨1, ⟨1, 0, 0⟩, ⟨1, 0, 0⟩⟩, ⟨2, ⟨2, 0, 0⟩, ⟨2, 0, 0⟩⟩,
   ⟨3, ⟨3, 0, 0⟩, ⟨3, 0, 0⟩⟩, ⟨4, ⟨4, 0, 0⟩, ⟨4, 0, 0⟩⟩, ⟨5, ⟨5, 0, 0⟩, ⟨5, 0, 0⟩⟩,
   ⟨6, ⟨6, 0, 0⟩, ⟨6, 0, 0⟩⟩, ⟨7, ⟨7, 0, 0⟩, ⟨7, 0, 0⟩⟩, ⟨8, ⟨8, 0, 0⟩, ⟨8, 0, 0⟩⟩,
   ⟨9, ⟨9, 0, 0⟩, ⟨9, 0, 0⟩⟩]

/-- The failed move of the C1 scenario: index 4 of the ten-move path. -/
def bugMove : MoveR := ⟨4, ⟨4, 0, 0⟩, ⟨4, 0, 0⟩⟩

/-- The agent's position in the C1 scenario: at the entry of move 5. -/
def bugPos : V3Q := ⟨5, 0, 0⟩

/-- C1: evaluation of the recovery decision at the spec's own scenario (a
move fails at index 4 of 10 with the agent nearest to the move at index
5).  The nearest remaining move is the one with identity 5, sitting at
original path index 5 — strictly LATER than the failed index 4 — so the
claim requires an interim replan to it and resumption just past index 5.
The code instead decides a full replan to the original goal (`full =
true`, no interim target): the in-place sort makes
`path.path.indexOf(nextMove)` evaluate to 0, which is compared against the
pre-sort index 4. -/
theorem recovery_nearest_bug_eval :
    (recoverySelect bugPos bugPath bugMove 0).map RecovSel.full = some true ∧
    (recoverySelect bugPos bugPath bugMove 0).map RecovSel.target = some none ∧
    ((sortByDist bugPos bugPath).head?).map MoveR.id = some 5 ∧
    indexOfMove ⟨5, ⟨5, 0, 0⟩, ⟨5, 0, 0⟩⟩ bugPath = some 5 ∧
    indexOfMove bugMove bugPath = some 4 := by
  norm_num [recoverySelect, sortByDist, insertByDist, indexOfMove, distSq, normSq, vdot, vsub,
    bugPath, bugMove, bugPos, List.findIdx?]

/-- Outcome of attempting one move of the path, as observed by the
try/catch of `ThePathfinder.perform` (lines 692-729): normal completion
advancing the index by `adding` (0 when the per-tick loop exhausts its
ceiling while pending), a recoverable `CancelError`, a user `AbortError`,
or a `ResetError` — the latter two make `perform` return. -/
inductive ExecOut
  | ok (adding : Nat)
  | cancel
  | abortErr
  | resetErr
deriving DecidableEq, Repr

/-- Execution state threaded through `perform`/`recovery`: whether any
movement control inputs are engaged (`bot.clearControlStates()` in
`cleanupBot` clears them; executing a move engages them) and a clock
indexing oracle queries. -/
structure ExecSt where
  ctrl : Bool
  clock : Nat
deriving DecidableEq, Repr

/-- Environment of a `perform`/`recovery` run: what each attempted move
execution does (`execO`), what each replan inside recovery returns
(`replanO`; `none` models `getPathFromToRaw` returning `null`), and the
agent position recovery reads (`posO`), all indexed by the state clock. -/
structure ExecEnv where
  execO : Nat → ExecOut
  replanO : Nat → Option (List MoveR)
  posO : Nat → V3Q

/-- Result of a `perform`/`recovery` call: normal return (including the
AbortError/ResetError early returns), the propagating fatal
`Error('Too many failures, exiting performing.')`, or fuel exhaustion of
the model. -/
inductive RunRes
  | finished
  | fatal
  | noFuel
deriving DecidableEq, Repr

/-- Trace events: a move execution attempt, and entering recovery with the
given retry counter (the `enteredRecovery` emit at line 735). -/
inductive Ev
  | execEv (id : Nat)
  | recovEv (entry : Nat)
deriving DecidableEq, Repr

/-- The three control points of the execution engine: a `perform(path,
goal, entry)` call, its move loop over the remaining moves (`full` keeps
the whole array that recovery receives), and a `recovery(move, path, goal,
entry)` call. -/
inductive CallK
  | perf (path : List MoveR) (entry : Nat)
  | loopK (rem : List MoveR) (full : List MoveR) (entry : Nat)
  | recov (move : MoveR) (path : List MoveR) (entry : Nat)

/-- Embedding of the mutual recursion of `ThePathfinder.perform` (lines
646-731) and `ThePathfinder.recovery` (lines 734-782), driven by fuel.
`perf` first checks the retry ceiling (`if (entry > 10) throw`), before
any move is executed; the loop clears control state (`cleanupBot`) before
each move, engages controls while executing it, continues on `ok n`
(`currentIndex += adding`), returns after recovery on `CancelError`, and
returns on `AbortError`/`ResetError`.  `recov` clears control state, makes
the selection of `recoverySelect`, replans, and either returns (null
path1), retries with `entry + 1` (full replan, and also the interim replan
branch), or — after a normally returning interim attempt — resumes the
spliced path with the counter reset to 0; a fatal error propagates
unchanged through every frame. -/
def runModel (env : ExecEnv) : Nat → ExecSt → CallK → RunRes × ExecSt × List Ev
  | 0, st, .perf _ entry =>
    if 10 < entry then (.fatal, st, []) else (.noFuel, st, [])
  | 0, st, _ => (.noFuel, st, [])
  | fuel+1, st, .perf path entry =>
    if 10 < entry then (.fatal, st, [])
    else runModel env fuel st (.loopK path path entry)
  | _+1, st, .loopK [] _ _ => (.finished, st, [])
  | fuel+1, st, .loopK (m :: rest) full entry =>
    let st2 : ExecSt := ⟨true, st.clock + 1⟩
    match env.execO st.clock with
    | .ok n =>
      let r := runModel env fuel st2 (.loopK (List.drop n (m :: rest)) full entry)
      (r.1, r.2.1, .execEv m.id :: r.2.2)
    | .cancel =>
      let r := runModel env fuel st2 (.recov m full entry)
      (r.1, r.2.1, .execEv m.id :: r.2.2)
    | .abortErr => (.finished, st2, [.execEv m.id])
    | .resetErr => (.finished, st2, [.execEv m.id])
  | fuel+1, st, .recov move path entry =>
    match recoverySelect (env.posO st.clock) path move entry with
    | none => (.finished, ⟨false, st.clock⟩, [.recovEv entry])
    | some sel =>
      match env.replanO (st.clock + 1) with
      | none => (.finished, ⟨false, st.clock + 2⟩, [.recovEv entry])
      | some path1 =>
        let st3 : ExecSt := ⟨false, st.clock + 2⟩
        if sel.full then
          let r := runModel env fuel st3 (.perf path1 (entry + 1))
          (r.1, r.2.1, .recovEv entry :: r.2.2)
        else
          let r1 := runModel env fuel st3 (.perf path1 (entry + 1))
          match r1.1 with
          | .finished =>
            let r2 := runModel env fuel r1.2.1 (.perf sel.resume 0)
            (r2.1, r2.2.1, .recovEv entry :: (r1.2.2 ++ r2.2.2))
          | _ => (r1.1, r1.2.1, .recovEv entry :: r1.2.2)

/-- The retry counter of a control point. -/
def entryOfCall : CallK → Nat
  | .perf _ e => e
  | .loopK _ _ e => e
  | .recov _ _ e => e

/-- Prepend an event to a run's trace. -/
def consTrace (e : Ev) (r : RunRes × ExecSt × List Ev) : RunRes × ExecSt × List Ev :=
  (r.1, r.2.1, e :: r.2.2)

/-- The retry-ceiling guard of `perform`: with a counter above the cap it
raises the fatal error before executing any move, leaving the state
untouched and the trace empty. -/
theorem runModel_perf_guard (env : ExecEnv) (fuel : Nat) (st : ExecSt) (path : List MoveR)
    (entry : Nat) (h : 10 < entry) :
    runModel env fuel st (.perf path entry) = (.fatal, st, []) := by
  cases fuel
  · simp [runModel, h]
  · simp [runModel, h]

theorem runModel_perf_step (env : ExecEnv) (fuel : Nat) (st : ExecSt) (path : List MoveR)
    (entry : Nat) (h : ¬ 10 < entry) :
    runModel env (fuel+1) st (.perf path entry) =
      runModel env fuel st (.loopK path path entry) := by
  simp [runModel, h]

theorem runModel_loop_nil (env : ExecEnv) (fuel : Nat) (st : ExecSt) (full : List MoveR)
    (entry : Nat) :
    runModel env (fuel+1) st (.loopK [] full entry) = (.finished, st, []) := rfl

theorem runModel_loop_ok (env : ExecEnv) (fuel : Nat) (st : ExecSt) (m : MoveR)
    (rest full : List MoveR) (entry n : Nat) (h : env.execO st.clock = .ok n) :
    runModel env (fuel+1) st (.loopK (m :: rest) full entry) =
      consTrace (.execEv m.id)
        (runModel env fuel ⟨true, st.clock + 1⟩ (.loopK (List.drop n (m :: rest)) full entry)) := by
  simp [runModel, consTrace, h]

theorem runModel_loop_cancel (env : ExecEnv) (fuel : Nat) (st : ExecSt) (m : MoveR)
    (rest full : List MoveR) (entry : Nat) (h : env.execO st.clock = .cancel) :
    runModel env (fuel+1) st (.loopK (m :: rest) full entry) =
      consTrace (.execEv m.id) (runModel env fuel ⟨true, st.clock + 1⟩ (.recov m full entry)) := by
  simp [runModel, consTrace, h]

theorem runModel_loop_abort (env : ExecEnv) (fuel : Nat) (st : ExecSt) (m : MoveR)
    (rest full : List MoveR) (entry : Nat) (h : env.execO st.clock = .abortErr) :
    runModel env (fuel+1) st (.loopK (m :: rest) full entry) =
      (.finished, ⟨true, st.clock + 1⟩, [.execEv m.id]) := by
  simp [runModel, h]

theorem runModel_loop_reset (env : ExecEnv) (fuel : Nat) (st : ExecSt) (m : MoveR)
    (rest full : List MoveR) (entry : Nat) (h : env.execO st.clock = .resetErr) :
    runModel env (fuel+1) st (.loopK (m :: rest) full entry) =
      (.finished, ⟨true, st.clock + 1⟩, [.execEv m.id]) := by
  simp [runModel, h]

theorem runModel_recov_offPath (env : ExecEnv) (fuel : Nat) (st : ExecSt) (move : MoveR)
    (path : List MoveR) (entry : Nat)
    (h : recoverySelect (env.posO st.clock) path move entry = none) :
    runModel env (fuel+1) st (.recov move path entry) =
      (.finished, ⟨false, st.clock⟩, [.recovEv entry]) := by
  simp [runModel, h]

theorem runModel_recov_noPlan (env : ExecEnv) (fuel : Nat) (st : ExecSt) (move : MoveR)
    (path : List MoveR) (entry : Nat) (sel : RecovSel)
    (hsel : recoverySelect (env.posO st.clock) path move entry = some sel)
    (hrep : env.replanO (st.clock + 1) = none) :
    runModel env (fuel+1) st (.recov move path entry) =
      (.finished, ⟨false, st.clock + 2⟩, [.recovEv entry]) := by
  simp [runModel, hsel, hrep]

theorem runModel_recov_full (env : ExecEnv) (fuel : Nat) (st : ExecSt) (move : MoveR)
    (path : List MoveR) (entry : Nat) (sel : RecovSel) (path1 : List MoveR)
    (hsel : recoverySelect (env.posO st.clock) path move entry = some sel)
    (hrep : env.replanO (st.clock + 1) = some path1) (hfull : sel.full = true) :
    runModel env (fuel+1) st (.recov move path entry) =
      consTrace (.recovEv entry)
        (runModel env fuel ⟨false, st.clock + 2⟩ (.perf path1 (entry + 1))) := by
  simp [runModel, consTrace, hsel, hrep, hfull]

theorem runModel_recov_resume_fin (env : ExecEnv) (fuel : Nat) (st : ExecSt) (move : MoveR)
    (path : List MoveR) (entry : Nat) (sel : RecovSel) (path1 : List MoveR)
    (hsel : recoverySelect (env.posO st.clock) path move entry = some sel)
    (hrep : env.replanO (st.clock + 1) = some path1) (hfull : sel.full = false)
    (hfin : (runModel env fuel ⟨false, st.clock + 2⟩ (.perf path1 (entry + 1))).1 = .finished) :
    runModel env (fuel+1) st (.recov move path entry) =
      ((runModel env fuel
          (runModel env fuel ⟨false, st.clock + 2⟩ (.perf path1 (entry + 1))).2.1
          (.perf sel.resume 0)).1,
       (runModel env fuel
          (runModel env fuel ⟨false, st.clock + 2⟩ (.perf path1 (entry + 1))).2.1
          (.perf sel.resume 0)).2.1,
       .recovEv entry ::
         ((runModel env fuel ⟨false, st.clock + 2⟩ (.perf path1 (entry + 1))).2.2 ++
          (runModel env fuel
            (runModel env fuel ⟨false, st.clock + 2⟩ (.perf path1 (entry + 1))).2.1
            (.perf sel.resume 0)).2.2)) := by
  simp only [runModel, hsel, hrep, hfull, Bool.false_eq_true, if_false, hfin]

theorem runModel_recov_resume_err (env : ExecEnv) (fuel : Nat) (st : ExecSt) (move : MoveR)
    (path : List MoveR) (entry : Nat) (sel : RecovSel) (path1 : List MoveR)
    (hsel : recoverySelect (env.posO st.clock) path move entry = some sel)
    (hrep : env.replanO (st.clock + 1) = some path1) (hfull : sel.full = false)
    (hne : (runModel env fuel ⟨false, st.clock + 2⟩ (.perf path1 (entry + 1))).1 ≠ .finished) :
    runModel env (fuel+1) st (.recov move path entry) =
      consTrace (.recovEv entry)
        (runModel env fuel ⟨false, st.clock + 2⟩ (.perf path1 (entry + 1))) := by
  have hcases : (runModel env fuel ⟨false, st.clock + 2⟩ (.perf path1 (entry + 1))).1 = .fatal ∨
      (runModel env fuel ⟨false, st.clock + 2⟩ (.perf path1 (entry + 1))).1 = .noFuel := by
    rcases hval : (runModel env fuel ⟨false, st.clock + 2⟩ (.perf path1 (entry + 1))).1
    · exact absurd hval hne
    · exact Or.inl rfl
    · exact Or.inr rfl
  rcases hcases with hr | hr
  all_goals
    simp only [runModel, consTrace, hsel, hrep, hfull, Bool.false_eq_true, if_false, hr]

/-- Membership of a recovery event in a trace headed by an execution
event. -/
theorem recov_mem_cons_exec {e mid : Nat} {tr : List Ev} :
    Ev.recovEv e ∈ Ev.execEv mid :: tr ↔ Ev.recovEv e ∈ tr := by
  simp

/-- Membership of a recovery event in a trace headed by a recovery
event. -/
theorem recov_mem_cons_recov {e e2 : Nat} {tr : List Ev} :
    Ev.recovEv e ∈ Ev.recovEv e2 :: tr ↔ e = e2 ∨ Ev.recovEv e ∈ tr := by
  simp

/-- Combined retry-ceiling invariant of the execution engine, by induction
on fuel over every control point: (i) a fatal result of a call whose
counter is within the cap leaves the movement controls cleared; (ii) every
recovery event of such a call carries a counter within the cap; (iii) every
recovery event carries the counter of the enclosing call, or counter 0 (a
post-recovery resume), or is accompanied in the trace by the event with the
immediately smaller counter — the counter strictly increases across nested
recovery attempts. -/
theorem runModel_props (env : ExecEnv) :
    ∀ (fuel : Nat) (st : ExecSt) (k : CallK),
      ((entryOfCall k ≤ 10 → (runModel env fuel st k).1 = .fatal →
        (runModel env fuel st k).2.1.ctrl = false) ∧
       (entryOfCall k ≤ 10 → ∀ e, Ev.recovEv e ∈ (runModel env fuel st k).2.2 → e ≤ 10) ∧
       (∀ e, Ev.recovEv e ∈ (runModel env fuel st k).2.2 →
         e = entryOfCall k ∨ e = 0 ∨ Ev.recovEv (e - 1) ∈ (runModel env fuel st k).2.2)) := by
  intro fuel
  induction fuel with
  | zero =>
    intro st k
    rcases k with ⟨path, entry⟩ | ⟨rem, full, entry⟩ | ⟨move, path, entry⟩
    · by_cases hg : 10 < entry
      · rw [runModel_perf_guard env 0 st path entry hg]
        refine ⟨?_, ?_, ?_⟩
        · intro hle
          exfalso
          simp only [entryOfCall] at hle
          omega
        · intro _ e he
          simp at he
        · intro e he
          simp at he
      · refine ⟨?_, ?_, ?_⟩ <;> simp [runModel, hg]
    · refine ⟨?_, ?_, ?_⟩ <;> simp [runModel]
    · refine ⟨?_, ?_, ?_⟩ <;> simp [runModel]
  | succ fuel ih =>
    intro st k
    rcases k with ⟨path, entry⟩ | ⟨rem, full, entry⟩ | ⟨move, path, entry⟩
    · by_cases hg : 10 < entry
      · rw [runModel_perf_guard env (fuel+1) st path entry hg]
        refine ⟨?_, ?_, ?_⟩
        · intro hle
          exfalso
          simp only [entryOfCall] at hle
          omega
        · intro _ e he
          simp at he
        · intro e he
          simp at he
      · rw [runModel_perf_step env fuel st path entry hg]
        exact ih st (.loopK path path entry)
    · rcases rem with _ | ⟨m, rest⟩
      · rw [runModel_loop_nil env fuel st full entry]
        refine ⟨?_, ?_, ?_⟩ <;> simp
      · rcases ho : env.execO st.clock with n | _ | _ | _
        · rw [runModel_loop_ok env fuel st m rest full entry n ho]
          obtain ⟨hA, hB, hC⟩ := ih ⟨true, st.clock + 1⟩ (.loopK (List.drop n (m :: rest)) full entry)
          refine ⟨?_, ?_, ?_⟩
          · intro hle hf
            exact hA hle hf
          · intro hle e he
            simp only [consTrace, List.mem_cons] at he
            rcases he with he | he
            · simp at he
            · exact hB hle e he
          · intro e he
            simp only [consTrace, List.mem_cons] at he
            rcases he with he | he
            · simp at he
            · rcases hC e he with h2 | h2 | h2
              · left
                exact h2
              · right
                left
                exact h2
              · right
                right
                exact List.mem_cons_of_mem _ h2
        · rw [runModel_loop_cancel env fuel st m rest full entry ho]
          obtain ⟨hA, hB, hC⟩ := ih ⟨true, st.clock + 1⟩ (.recov m full entry)
          refine ⟨?_, ?_, ?_⟩
          · intro hle hf
            exact hA hle hf
          · intro hle e he
            simp only [consTrace, List.mem_cons] at he
            rcases he with he | he
            · simp at he
            · exact hB hle e he
          · intro e he
            simp only [consTrace, List.mem_cons] at he
            rcases he with he | he
            · simp at he
            · rcases hC e he with h2 | h2 | h2
              · left
                exact h2
              · right
                left
                exact h2
              · right
                right
                exact List.mem_cons_of_mem _ h2
        · rw [runModel_loop_abort env fuel st m rest full entry ho]
          refine ⟨?_, ?_, ?_⟩ <;> simp
        · rw [runModel_loop_reset env fuel st m rest full entry ho]
          refine ⟨?_, ?_, ?_⟩ <;> simp
    · rcases hsel : recoverySelect (env.posO st.clock) path move entry with _ | sel
      · rw [runModel_recov_offPath env fuel st move path entry hsel]
        refine ⟨?_, ?_, ?_⟩
        · simp
        · intro hle e he
          simp only [entryOfCall] at hle
          simp at he
          omega
        · intro e he
          simp at he
          left
          exact he
      · rcases hrep : env.replanO (st.clock + 1) with _ | path1
        · rw [runModel_recov_noPlan env fuel st move path entry sel hsel hrep]
          refine ⟨?_, ?_, ?_⟩
          · simp
          · intro hle e he
            simp only [entryOfCall] at hle
            simp at he
            omega
          · intro e he
            simp at he
            left
            exact he
        · rcases hfull : sel.full
          · by_cases hfin :
              (runModel env fuel ⟨false, st.clock + 2⟩ (.perf path1 (entry + 1))).1 = .finished
            · rw [runModel_recov_resume_fin env fuel st move path entry sel path1 hsel hrep hfull hfin]
              have h10 : ¬ 10 < entry + 1 := by
                intro hgt
                rw [runModel_perf_guard env fuel ⟨false, st.clock + 2⟩ path1 (entry + 1) hgt] at hfin
                simp at hfin
              obtain ⟨hA1, hB1, hC1⟩ := ih ⟨false, st.clock + 2⟩ (.perf path1 (entry + 1))
              obtain ⟨hA2, hB2, hC2⟩ :=
                ih (runModel env fuel ⟨false, st.clock + 2⟩ (.perf path1 (entry + 1))).2.1
                  (.perf sel.resume 0)
              refine ⟨?_, ?_, ?_⟩
              · intro hle hf
                exact hA2 (by simp only [entryOfCall]; omega) hf
              · intro hle e he
                simp only [List.mem_cons, List.mem_append] at he
                rcases he with he | he | he
                · simp only [entryOfCall] at hle
                  simp at he
                  omega
                · exact hB1 (by simp only [entryOfCall]; omega) e he
                · exact hB2 (by simp only [entryOfCall]; omega) e he
              · intro e he
                simp only [List.mem_cons, List.mem_append] at he
                rcases he with he | he | he
                · simp at he
                  left
                  exact he
                · rcases hC1 e he with h2 | h2 | h2
                  · right
                    right
                    rw [h2]
                    simp [entryOfCall]
                  · right
                    left
                    exact h2
                  · right
                    right
                    exact List.mem_cons_of_mem _ (List.mem_append_left _ h2)
                · rcases hC2 e he with h2 | h2 | h2
                  · right
                    left
                    exact h2
                  · right
                    left
                    exact h2
                  · right
                    right
                    exact List.mem_cons_of_mem _ (List.mem_append_right _ h2)
            · rw [runModel_recov_resume_err env fuel st move path entry sel path1 hsel hrep hfull hfin]
              obtain ⟨hA1, hB1, hC1⟩ := ih ⟨false, st.clock + 2⟩ (.perf path1 (entry + 1))
              refine ⟨?_, ?_, ?_⟩
              · intro hle hf
                by_cases h10 : 10 < entry + 1
                · have hg := runModel_perf_guard env fuel ⟨false, st.clock + 2⟩ path1 (entry + 1) h10
                  simp [consTrace, hg]
                · exact hA1 (by simp only [entryOfCall]; omega) hf
              · intro hle e he
                simp only [consTrace, List.mem_cons] at he
                rcases he with he | he
                · simp only [entryOfCall] at hle
                  simp at he
                  omega
                · by_cases h10 : 10 < entry + 1
                  · have hg := runModel_perf_guard env fuel ⟨false, st.clock + 2⟩ path1 (entry + 1) h10
                    rw [hg] at he
                    simp at he
                  · exact hB1 (by simp only [entryOfCall]; omega) e he
              · intro e he
                simp only [consTrace, List.mem_cons] at he
                rcases he with he | he
                · simp at he
                  left
                  exact he
                · rcases hC1 e he with h2 | h2 | h2
                  · right
                    right
                    rw [h2]
                    simp [consTrace, entryOfCall]
                  · right
                    left
                    exact h2
                  · right
                    right
                    simp only [consTrace]
                    exact List.mem_cons_of_mem _ h2
          · rw [runModel_recov_full env fuel st move path entry sel path1 hsel hrep hfull]
            obtain ⟨hA1, hB1, hC1⟩ := ih ⟨false, st.clock + 2⟩ (.perf path1 (entry + 1))
            refine ⟨?_, ?_, ?_⟩
            · intro hle hf
              by_cases h10 : 10 < entry + 1
              · have hg := runModel_perf_guard env fuel ⟨false, st.clock + 2⟩ path1 (entry + 1) h10
                simp [consTrace, hg]
              · exact hA1 (by simp only [entryOfCall]; omega) hf
            · intro hle e he
              simp only [entryOfCall] at hle
              simp only [consTrace, List.mem_cons] at he
              rcases he with he | he
              · simp at he
                omega
              · by_cases h10 : 10 < entry + 1
                · have hg := runModel_perf_guard env fuel ⟨false, st.clock + 2⟩ path1 (entry + 1) h10
                  rw [hg] at he
                  simp at he
                · exact hB1 (by simp only [entryOfCall]; omega) e he
            · intro e he
              simp only [consTrace, List.mem_cons] at he
              rcases he with he | he
              · simp at he
                left
                exact he
              · rcases hC1 e he with h2 | h2 | h2
                · right
                  right
                  rw [h2]
                  simp [consTrace, entryOfCall]
                · right
                  left
                  exact h2
                · right
                  right
                  simp only [consTrace]
                  exact List.mem_cons_of_mem _ h2

/-- C2: recovery recursion is bounded by the configured retry ceiling.
(i) Any invocation of `perform` whose retry counter exceeds the cap of 10
raises the fatal error instead of executing any move: the trace is empty
and the state is returned untouched.  (ii) In any execution started with
counter 0 (as `goto` starts it), a fatal outcome leaves all movement
control inputs cleared.  (iii) In such an execution every recovery attempt
carries a counter at most 10, and the counter strictly increases across
nested recovery attempts: a recovery at level `e ≠ 0` occurs only in a run
that also enters recovery at level `e - 1`. -/
theorem perform_retry_ceiling :
    (∀ (env : ExecEnv) (fuel : Nat) (st : ExecSt) (path : List MoveR) (entry : Nat),
      10 < entry → runModel env fuel st (.perf path entry) = (.fatal, st, [])) ∧
    (∀ (env : ExecEnv) (fuel : Nat) (st : ExecSt) (path : List MoveR),
      (runModel env fuel st (.perf path 0)).1 = .fatal →
        (runModel env fuel st (.perf path 0)).2.1.ctrl = false) ∧
    (∀ (env : ExecEnv) (fuel : Nat) (st : ExecSt) (path : List MoveR) (e : Nat),
      Ev.recovEv e ∈ (runModel env fuel st (.perf path 0)).2.2 →
        e ≤ 10 ∧ (e ≠ 0 → Ev.recovEv (e - 1) ∈ (runModel env fuel st (.perf path 0)).2.2)) := by
  refine ⟨?_, ?_, ?_⟩
  · intro env fuel st path entry h
    exact runModel_perf_guard env fuel st path entry h
  · intro env fuel st path hf
    exact (runModel_props env fuel st (.perf path 0)).1 (by simp only [entryOfCall]; omega) hf
  · intro env fuel st path e he
    obtain ⟨hA, hB, hC⟩ := runModel_props env fuel st (.perf path 0)
    refine ⟨hB (by simp only [entryOfCall]; omega) e he, ?_⟩
    intro hne
    rcases hC e he with h1 | h1 | h1
    · simp only [entryOfCall] at h1
      exact absurd h1 hne
    · exact absurd h1 hne
    · exact h1

/-- The single move of the C2 witness run. -/
def moveW : MoveR := ⟨0, ⟨0, 0, 0⟩, ⟨0, 0, 0⟩⟩

/-- C2 witness environment: every move execution throws `CancelError` and
every replan returns the same one-move path, so recovery nests until the
ceiling. -/
def envW : ExecEnv :=
  { execO := fun _ => .cancel,
    replanO := fun _ => some [moveW],
    posO := fun _ => ⟨0, 0, 0⟩ }

set_option maxRecDepth 8000 in
/-- C2 witness: above the cap the call is fatal with nothing executed; the
cancel-forever run from counter 0 ends fatal with controls cleared; its
trace contains recovery level 10, which is within the cap and preceded by
level 9. -/
theorem perform_retry_ceiling_witness :
    runModel envW 60 ⟨false, 0⟩ (.perf [moveW] 11) = (.fatal, ⟨false, 0⟩, []) ∧
    (runModel envW 60 ⟨false, 0⟩ (.perf [moveW] 0)).2.1.ctrl = false ∧
    (10 ≤ 10 ∧ (10 ≠ 0 → Ev.recovEv 9 ∈ (runModel envW 60 ⟨false, 0⟩ (.perf [moveW] 0)).2.2)) := by
  refine ⟨?_, ?_, ?_⟩
  · exact perform_retry_ceiling.1 envW 60 ⟨false, 0⟩ [moveW] 11 (by omega)
  · exact perform_retry_ceiling.2.1 envW 60 ⟨false, 0⟩ [moveW] (by decide)
  · exact perform_retry_ceiling.2.2 envW 60 ⟨false, 0⟩ [moveW] 10 (by decide)
